import Mathlib

/-!
Verification of the menu-item CRUD service (src/server.js): data model,
validation chains, sanitization, id parsing, and the four mutating or
reading request handlers, embedded as pure Lean functions over an explicit
store state.
-/

set_option maxRecDepth 2048

namespace MenuApi

/-- A JSON value as delivered by the body parser to the handlers. -/
inductive JVal where
  | jnull
  | jbool (b : Bool)
  | jnum (q : ℚ)
  | jstr (s : String)
  | jarr (elems : List JVal)
mutual

/-- Decidable equality of JSON values, by structural comparison. -/
def JVal.decEq : (a b : JVal) → Decidable (a = b)
  | .jnull, .jnull => isTrue rfl
  | .jbool a, .jbool b =>
    if h : a = b then isTrue (h ▸ rfl) else isFalse fun hh => h (JVal.jbool.inj hh)
  | .jnum a, .jnum b =>
    if h : a = b then isTrue (h ▸ rfl) else isFalse fun hh => h (JVal.jnum.inj hh)
  | .jstr a, .jstr b =>
    if h : a = b then isTrue (h ▸ rfl) else isFalse fun hh => h (JVal.jstr.inj hh)
  | .jarr xs, .jarr ys =>
    match JVal.decEqList xs ys with
    | isTrue h => isTrue (h ▸ rfl)
    | isFalse h => isFalse fun hh => h (JVal.jarr.inj hh)
  | .jnull, .jbool _ => isFalse fun h => JVal.noConfusion h
  | .jnull, .jnum _ => isFalse fun h => JVal.noConfusion h
  | .jnull, .jstr _ => isFalse fun h => JVal.noConfusion h
  | .jnull, .jarr _ => isFalse fun h => JVal.noConfusion h
  | .jbool _, .jnull => isFalse fun h => JVal.noConfusion h
  | .jbool _, .jnum _ => isFalse fun h => JVal.noConfusion h
  | .jbool _, .jstr _ => isFalse fun h => JVal.noConfusion h
  | .jbool _, .jarr _ => isFalse fun h => JVal.noConfusion h
  | .jnum _, .jnull => isFalse fun h => JVal.noConfusion h
  | .jnum _, .jbool _ => isFalse fun h => JVal.noConfusion h
  | .jnum _, .jstr _ => isFalse fun h => JVal.noConfusion h
  | .jnum _, .jarr _ => isFalse fun h => JVal.noConfusion h
  | .jstr _, .jnull => isFalse fun h => JVal.noConfusion h
  | .jstr _, .jbool _ => isFalse fun h => JVal.noConfusion h
  | .jstr _, .jnum _ => isFalse fun h => JVal.noConfusion h
  | .jstr _, .jarr _ => isFalse fun h => JVal.noConfusion h
  | .jarr _, .jnull => isFalse fun h => JVal.noConfusion h
  | .jarr _, .jbool _ => isFalse fun h => JVal.noConfusion h
  | .jarr _, .jnum _ => isFalse fun h => JVal.noConfusion h
  | .jarr _, .jstr _ => isFalse fun h => JVal.noConfusion h

/-- Decidable equality of JSON value lists. -/
def JVal.decEqList : (a b : List JVal) → Decidable (a = b)
  | [], [] => isTrue rfl
  | x :: xs, y :: ys =>
    match JVal.decEq x y, JVal.decEqList xs ys with
    | isTrue h1, isTrue h2 => isTrue (by rw [h1, h2])
    | isFalse h1, _ => isFalse fun hh => h1 (List.cons.inj hh).1
    | _, isFalse h2 => isFalse fun hh => h2 (List.cons.inj hh).2
  | [], _ :: _ => isFalse fun h => List.noConfusion h
  | _ :: _, [] => isFalse fun h => List.noConfusion h

end

instance : DecidableEq JVal := JVal.decEq

/-- A request body: a JSON object, as an association list of fields. -/
abbrev Body : Type := List (String × JVal)

/-- A stored menu item, with the seven persisted fields. -/
structure MenuItem where
  id : Int
  name : String
  description : String
  price : ℚ
  category : String
  ingredients : List JVal
  available : JVal
deriving DecidableEq

/-- The whitespace class of the host language, stripped by the string trim
sanitizer and skipped by the leading-whitespace phase of integer parsing:
the ASCII controls and space, no-break space, the Ogham space mark, the
en-quad through hair-space block, line and paragraph separators, the
narrow and medium mathematical spaces, the ideographic space, and the
zero-width no-break space. -/
def jsWs (c : Char) : Bool :=
  c = ' ' || c = '\t' || c = '\n' || c = '\r' || c = '\x0b' || c = '\x0c' ||
  c = '\u00A0' || c = '\u1680' ||
  ('\u2000' ≤ c && c ≤ '\u200A') ||
  c = '\u2028' || c = '\u2029' || c = '\u202F' || c = '\u205F' ||
  c = '\u3000' || c = '\uFEFF'

/-- The trim sanitizer: strip whitespace from both ends of a string. -/
def trimJs (s : String) : String :=
  String.mk (((s.data.dropWhile jsWs).reverse.dropWhile jsWs).reverse)

/-- Length of a string as counted by the length validator: code points,
with the two emoji variation selectors not counted. -/
def jsLength (s : String) : Nat :=
  (s.data.filter (fun c => !(c = '\uFE0F' || c = '\uFE0E'))).length

/-- Value of a decimal digit, if the character is one. -/
def digitVal (c : Char) : Option Nat :=
  if '0' ≤ c ∧ c ≤ '9' then some (c.toNat - 48) else none

/-- Value of a hexadecimal digit, if the character is one. -/
def hexVal (c : Char) : Option Nat :=
  if '0' ≤ c ∧ c ≤ '9' then some (c.toNat - 48)
  else if 'a' ≤ c ∧ c ≤ 'f' then some (c.toNat - 87)
  else if 'A' ≤ c ∧ c ≤ 'F' then some (c.toNat - 55)
  else none

/-- Accumulate the longest run of digits at the head of the list. -/
def leadNumAcc (f : Char → Option Nat) (base : Nat) : List Char → Nat → Nat
  | [], acc => acc
  | c :: cs, acc =>
    match f c with
    | some d => leadNumAcc f base cs (acc * base + d)
    | none => acc

/-- Numeric value of the longest digit run at the head of the list;
none when the first character is not a digit. -/
def leadNum (f : Char → Option Nat) (base : Nat) : List Char → Option Nat
  | [] => none
  | c :: cs =>
    match f c with
    | some d => some (leadNumAcc f base cs d)
    | none => none

/-- Unsigned phase of integer parsing: a 0x or 0X head switches to base 16,
anything else parses the longest decimal digit run. -/
def parseUnsigned : List Char → Option Nat
  | '0' :: x :: rest =>
    if x = 'x' ∨ x = 'X' then leadNum hexVal 16 rest
    else leadNum digitVal 10 ('0' :: x :: rest)
  | cs => leadNum digitVal 10 cs

/-- The integer parse applied to the id path parameter: skip leading
whitespace, read an optional sign, then the longest digit run (with the
hexadecimal 0x form); none models the not-a-number outcome, under which
every lookup by id misses. -/
def parseIntJs (s : String) : Option Int :=
  match s.data.dropWhile jsWs with
  | '-' :: rest => (parseUnsigned rest).map (fun n => -(n : Int))
  | '+' :: rest => (parseUnsigned rest).map (fun n => (n : Int))
  | rest => (parseUnsigned rest).map (fun n => (n : Int))

/-- Split the longest decimal digit run off the head of the list. -/
def splitDigits : List Char → List Char × List Char
  | [] => ([], [])
  | c :: cs =>
    if '0' ≤ c ∧ c ≤ '9' then
      let p := splitDigits cs
      (c :: p.1, p.2)
    else ([], c :: cs)

/-- Numeric value of a digit run. -/
def digitsToNat (ds : List Char) : Nat :=
  ds.foldl (fun a c => a * 10 + (c.toNat - 48)) 0

/-- Reading a float literal yields a double: a magnitude at or below half
the smallest subnormal, two to the power 1075 written as nested powers,
rounds to zero, so such a literal fails a strict positivity bound exactly
as in the host language. Larger magnitudes are
kept exact, which agrees with the host on the sign and on every strict
comparison against zero, though not on the rounded digits themselves. -/
def underflowZero (q : ℚ) : ℚ :=
  if abs q ≤ 1 / ((2 : ℚ) ^ 43) ^ 25 then 0 else q

/-- The value of a string as a floating-point literal, exactly when the
whole string matches sign, digits with an optional fraction part (at least
one digit overall), and an optional exponent part; the value is read
through the double underflow collapse. This is the common semantics of the
float format check and of the numeric coercion applied to a string that
passed the check. -/
def jsFloatLit (s : String) : Option ℚ :=
  let signed : ℚ × List Char :=
    match s.data with
    | '-' :: r => (-1, r)
    | '+' :: r => (1, r)
    | r => (1, r)
  let ip := splitDigits signed.2
  let fp : List Char × List Char :=
    match ip.2 with
    | '.' :: r => splitDigits r
    | r => ([], r)
  if ip.1 = [] ∧ fp.1 = [] then none
  else
    let mant : ℚ := (digitsToNat ip.1 : ℚ) + (digitsToNat fp.1 : ℚ) / (10 : ℚ) ^ fp.1.length
    match fp.2 with
    | [] => some (underflowZero (signed.1 * mant))
    | e :: r3 =>
      if e = 'e' ∨ e = 'E' then
        let esigned : Bool × List Char :=
          match r3 with
          | '-' :: r => (false, r)
          | '+' :: r => (true, r)
          | r => (true, r)
        let ed := splitDigits esigned.2
        if ed.1 = [] ∨ ed.2 ≠ [] then none
        else if esigned.1 then
          some (underflowZero (signed.1 * mant * (10 : ℚ) ^ digitsToNat ed.1))
        else some (underflowZero (signed.1 * mant / (10 : ℚ) ^ digitsToNat ed.1))
      else none

/-- Decimal digit characters of a natural number, most significant first;
the first argument is recursion fuel kept above the digit count. -/
def natDigitsAux : Nat → Nat → List Char
  | 0, _ => []
  | fuel + 1, n =>
    if n < 10 then [Char.ofNat (48 + n)]
    else natDigitsAux fuel (n / 10) ++ [Char.ofNat (48 + n % 10)]

/-- Decimal spelling of a natural number. -/
def natToString (n : Nat) : String := String.mk (natDigitsAux (n + 1) n)

/-- Decimal digits of the fraction r over d, one digit per ten-fold step,
stopping when the remainder clears; the fuel d covers every denominator
dividing a power of ten, the form of every JSON number. -/
def fracDigits : Nat → Nat → Nat → List Char
  | 0, _, _ => []
  | fuel + 1, r, d =>
    if r = 0 then []
    else Char.ofNat (48 + r * 10 / d) :: fracDigits fuel (r * 10 % d) d

/-- The string a number spells: sign, integer digits, and the exact
decimal expansion of the fraction. This is the plain positional form the
host prints for the magnitudes the service handles; the exponent notation
the host switches to beyond twenty-one digits is not modelled. -/
def numToString (q : ℚ) : String :=
  let n := q.num.natAbs
  let d := q.den
  let ipart := natToString (n / d)
  let fpart := fracDigits d (n % d) d
  let core := if fpart = [] then ipart else ipart ++ "." ++ String.mk fpart
  if q.num < 0 then "-" ++ core else core

mutual

/-- The string form of a value sitting inside an array, as the host
spells it when joining: null becomes empty, booleans and numbers spell
themselves, strings stand, and a nested array joins its elements with
commas. -/
def toStringInner : JVal → String
  | JVal.jnull => ""
  | JVal.jbool true => "true"
  | JVal.jbool false => "false"
  | JVal.jnum q => numToString q
  | JVal.jstr s => s
  | JVal.jarr xs => joinList xs

/-- Comma join of the string forms of array elements. -/
def joinList : List JVal → String
  | [] => ""
  | [v] => toStringInner v
  | v :: vs => toStringInner v ++ "," ++ joinList vs

end

/-- The string the validator runtime hands to every string-based check or
sanitizer for a field value: null (and a missing field) becomes the empty
string, booleans and numbers spell themselves, strings stand, and a
nonempty array is read through its first element. -/
def toStringEV : JVal → String
  | JVal.jnull => ""
  | JVal.jbool true => "true"
  | JVal.jbool false => "false"
  | JVal.jnum q => numToString q
  | JVal.jstr s => s
  | JVal.jarr [] => ""
  | JVal.jarr (v :: _) => toStringInner v

/-- The boolean check on the stringified value: exactly the spellings
true, false, 1 and 0 are accepted. -/
def boolLikeStr (s : String) : Bool :=
  s = "true" || s = "false" || s = "1" || s = "0"

/-- One entry of the errors array of a failed validation: the offending
field and its human-readable message. -/
structure FieldError where
  path : String
  msg : String
deriving DecidableEq

def nameStrErr : FieldError := ⟨"name", "Name must be a string"⟩
def nameLenErr : FieldError := ⟨"name", "Name must be at least 3 characters"⟩
def descStrErr : FieldError := ⟨"description", "Description must be a string"⟩
def descLenErr : FieldError := ⟨"description", "Description must be at least 10 characters"⟩
def priceErr : FieldError := ⟨"price", "Price must be a number greater than 0"⟩
def catStrErr : FieldError := ⟨"category", "Category must be a string"⟩
def catInErr : FieldError :=
  ⟨"category", "Category must be one of: appetizer, entree, dessert, beverage"⟩
def ingErr : FieldError := ⟨"ingredients", "Ingredients must be an array with at least 1 item"⟩
def availErr : FieldError := ⟨"available", "Available must be a boolean"⟩

/-- Field lookup in a request body. -/
def lookupJ (b : Body) (k : String) : Option JVal :=
  (List.find? (fun p => p.1 == k) b).map (fun p => p.2)

/-- Chain for name: string check on the raw value, trim sanitizer, then
minimum length 3 on the trimmed string form; a present non-string value
fails the string check and still runs the length check on its string
form, and a missing field is coerced to the empty string and fails both
checks. -/
def checkName : Option JVal → List FieldError
  | some (JVal.jstr s) => if 3 ≤ jsLength (trimJs s) then [] else [nameLenErr]
  | some v =>
    nameStrErr :: (if 3 ≤ jsLength (trimJs (toStringEV v)) then [] else [nameLenErr])
  | none => [nameStrErr, nameLenErr]

/-- Chain for description: string check, trim sanitizer, then minimum
length 10 on the trimmed string form. -/
def checkDescription : Option JVal → List FieldError
  | some (JVal.jstr s) => if 10 ≤ jsLength (trimJs s) then [] else [descLenErr]
  | some v =>
    descStrErr :: (if 10 ≤ jsLength (trimJs (toStringEV v)) then [] else [descLenErr])
  | none => [descStrErr, descLenErr]

/-- The numeric reading shared by the price check and the price coercion:
the check stringifies the value, a nonempty array through its first
element, and requires a full float literal; the handler coercion reads the
longest leading float literal of the string form of the raw value, which
on every value the check accepts is the same validated literal, since the
comma a longer array appends stops the read. -/
def parsePrice (v : JVal) : Option ℚ := jsFloatLit (toStringEV v)

/-- Chain for price: the float format check on the string form with the
strict lower bound 0 on its parsed value. -/
def checkPrice : Option JVal → List FieldError
  | some v =>
    match parsePrice v with
    | some q => if 0 < q then [] else [priceErr]
    | none => [priceErr]
  | none => [priceErr]

def categories : List String := ["appetizer", "entree", "dessert", "beverage"]

/-- Chain for category: string check on the raw value, then membership of
the string form in the four allowed values; a missing field fails both
checks. -/
def checkCategory : Option JVal → List FieldError
  | some (JVal.jstr s) => if s ∈ categories then [] else [catInErr]
  | some v => catStrErr :: (if toStringEV v ∈ categories then [] else [catInErr])
  | none => [catStrErr, catInErr]

/-- Chain for ingredients: the array check with minimum 1 element, run on
the raw value. -/
def checkIngredients : Option JVal → List FieldError
  | some (JVal.jarr xs) => if xs = [] then [ingErr] else []
  | some _ => [ingErr]
  | none => [ingErr]

/-- Chain for available: optional, and when present the boolean check on
the string form, which accepts actual booleans together with the lax
spellings true, false, 1 and 0 however the value stringifies to them. -/
def checkAvailable : Option JVal → List FieldError
  | none => []
  | some v => if boolLikeStr (toStringEV v) then [] else [availErr]

/-- All six chains, run in field order with every violation collected. -/
def validateErrors (b : Body) : List FieldError :=
  checkName (lookupJ b "name") ++ checkDescription (lookupJ b "description") ++
  checkPrice (lookupJ b "price") ++ checkCategory (lookupJ b "category") ++
  checkIngredients (lookupJ b "ingredients") ++ checkAvailable (lookupJ b "available")

/-- Effect of the trim sanitizer on one field value: the value is
stringified and trimmed, and the string is written back into the body. -/
def trimVal (v : JVal) : JVal := JVal.jstr (trimJs (toStringEV v))

/-- The sanitized request body seen by the handlers: the trim sanitizers
of the name and description chains have rewritten those two fields. -/
def sanitizeBody (b : Body) : Body :=
  b.map (fun p => if p.1 == "name" || p.1 == "description" then (p.1, trimVal p.2) else p)

/-- Read a string field from a body value. -/
def getStr : Option JVal → String
  | some (JVal.jstr s) => s
  | _ => ""

/-- Read the price field from a body value through the numeric coercion. -/
def getPrice : Option JVal → ℚ
  | some v => (parsePrice v).getD 0
  | none => 0

/-- Read an array field from a body value. -/
def getArr : Option JVal → List JVal
  | some (JVal.jarr xs) => xs
  | _ => []

/-- Read the available field: the raw value when present, the boolean
true when absent, exactly the conditional the handlers store. -/
def getAvail : Option JVal → JVal
  | some v => v
  | none => JVal.jbool true

/-- The item built from a validated body and an id: each stored field is
the corresponding field of the sanitized body, with price coerced to a
number and available defaulted to true when absent. Used with the fresh id
by the insert handler, and with the existing id by the update handler. -/
def mkFromBody (i : Int) (b : Body) : MenuItem :=
  let sb := sanitizeBody b
  ⟨i, getStr (lookupJ sb "name"), getStr (lookupJ sb "description"),
    getPrice (lookupJ sb "price"), getStr (lookupJ sb "category"),
    getArr (lookupJ sb "ingredients"), getAvail (lookupJ sb "available")⟩

/-- Seed record with id 1. -/
def item1 : MenuItem :=
  ⟨1, "Classic Burger",
    "Beef patty with lettuce, tomato, and cheese on a sesame seed bun",
    (1299 / 100 : ℚ), "entree",
    [JVal.jstr "beef", JVal.jstr "lettuce", JVal.jstr "tomato", JVal.jstr "cheese",
      JVal.jstr "bun"], JVal.jbool true⟩

/-- Seed record with id 2. -/
def item2 : MenuItem :=
  ⟨2, "Chicken Caesar Salad",
    "Grilled chicken breast over romaine lettuce with parmesan and croutons",
    (1150 / 100 : ℚ), "entree",
    [JVal.jstr "chicken", JVal.jstr "romaine lettuce", JVal.jstr "parmesan cheese",
      JVal.jstr "croutons", JVal.jstr "caesar dressing"], JVal.jbool true⟩

/-- Seed record with id 3. -/
def item3 : MenuItem :=
  ⟨3, "Mozzarella Sticks",
    "Crispy breaded mozzarella served with marinara sauce",
    (899 / 100 : ℚ), "appetizer",
    [JVal.jstr "mozzarella cheese", JVal.jstr "breadcrumbs", JVal.jstr "marinara sauce"],
    JVal.jbool true⟩

/-- Seed record with id 4. -/
def item4 : MenuItem :=
  ⟨4, "Chocolate Lava Cake",
    "Warm chocolate cake with molten center, served with vanilla ice cream",
    (799 / 100 : ℚ), "dessert",
    [JVal.jstr "chocolate", JVal.jstr "flour", JVal.jstr "eggs", JVal.jstr "butter",
      JVal.jstr "vanilla ice cream"], JVal.jbool true⟩

/-- Seed record with id 5. -/
def item5 : MenuItem :=
  ⟨5, "Fresh Lemonade",
    "House-made lemonade with fresh lemons and mint",
    (399 / 100 : ℚ), "beverage",
    [JVal.jstr "lemons", JVal.jstr "sugar", JVal.jstr "water", JVal.jstr "mint"], JVal.jbool true⟩

/-- Seed record with id 6. -/
def item6 : MenuItem :=
  ⟨6, "Fish and Chips",
    "Beer-battered cod with seasoned fries and coleslaw",
    (1499 / 100 : ℚ), "entree",
    [JVal.jstr "cod", JVal.jstr "beer batter", JVal.jstr "potatoes", JVal.jstr "coleslaw",
      JVal.jstr "tartar sauce"], JVal.jbool false⟩

/-- The fixed list of six records present at process start. -/
def seedMenuItems : List MenuItem := [item1, item2, item3, item4, item5, item6]

/-- Lookup by parsed numeric id: the first item whose id matches. -/
def findItem (items : List MenuItem) (i : Int) : Option MenuItem :=
  List.find? (fun it => it.id == i) items

/-- The full read path of the single-item route: parse the id parameter,
then look it up; none is answered with status 404. -/
def lookupById (items : List MenuItem) (idStr : String) : Option MenuItem :=
  match parseIntJs idStr with
  | none => none
  | some i => findItem items i

/-- The list route: the full stored sequence, unfiltered. -/
def getAllHandler (items : List MenuItem) : List MenuItem := items

/-- Fresh id assignment of the insert handler: one more than the largest
id present, or 1 when the collection is empty. -/
def nextId (items : List MenuItem) : Int :=
  match items.map (fun it => it.id) with
  | [] => 1
  | x :: xs => xs.foldl max x + 1

/-- Outcome of the insert route. -/
inductive PostRes where
  | created (item : MenuItem)
  | badRequest (errors : List FieldError)
deriving DecidableEq

/-- The insert handler: reject with the full error list when validation
fails, otherwise append the built item with a fresh id at the end. -/
def postHandler (items : List MenuItem) (b : Body) : List MenuItem × PostRes :=
  if validateErrors b = [] then
    let newItem := mkFromBody (nextId items) b
    (items ++ [newItem], PostRes.created newItem)
  else (items, PostRes.badRequest (validateErrors b))

/-- Outcome of the update route. -/
inductive PutRes where
  | ok (item : MenuItem)
  | notFound
  | badRequest (errors : List FieldError)
deriving DecidableEq

/-- Rewrite the first item matching the id through the given function. -/
def updateFirst (f : MenuItem → MenuItem) (i : Int) : List MenuItem → List MenuItem
  | [] => []
  | it :: rest => if it.id = i then f it :: rest else it :: updateFirst f i rest

/-- The update handler. The validation middleware answers before the
handler runs, so an invalid body is rejected even for an unmatched id;
otherwise a failed id parse or lookup answers not found, and a hit
rewrites every field except the id of the matched item in place. -/
def putHandler (items : List MenuItem) (idStr : String) (b : Body) :
    List MenuItem × PutRes :=
  if validateErrors b = [] then
    match parseIntJs idStr with
    | none => (items, PutRes.notFound)
    | some i =>
      match findItem items i with
      | none => (items, PutRes.notFound)
      | some it =>
        (updateFirst (fun old => mkFromBody old.id b) i items,
          PutRes.ok (mkFromBody it.id b))
  else (items, PutRes.badRequest (validateErrors b))

/-- Outcome of the delete route. -/
inductive DelRes where
  | deleted (item : MenuItem)
  | notFound
deriving DecidableEq

/-- Remove the first item matching the id. -/
def removeFirst (i : Int) : List MenuItem → List MenuItem
  | [] => []
  | it :: rest => if it.id = i then rest else it :: removeFirst i rest

/-- The delete handler: a failed id parse or lookup answers not found,
a hit removes exactly the first matched element and returns it. -/
def deleteHandler (items : List MenuItem) (idStr : String) :
    List MenuItem × DelRes :=
  match parseIntJs idStr with
  | none => (items, DelRes.notFound)
  | some i =>
    match findItem items i with
    | none => (items, DelRes.notFound)
    | some it => (removeFirst i items, DelRes.deleted it)

/-- HTTP status of a single-item read outcome. -/
def getStatus : Option MenuItem → Nat
  | some _ => 200
  | none => 404

/-- HTTP status of an insert outcome. -/
def postStatus : PostRes → Nat
  | PostRes.created _ => 201
  | PostRes.badRequest _ => 400

/-- HTTP status of an update outcome. -/
def putStatus : PutRes → Nat
  | PutRes.ok _ => 200
  | PutRes.notFound => 404
  | PutRes.badRequest _ => 400

/-- HTTP status of a delete outcome. -/
def delStatus : DelRes → Nat
  | DelRes.deleted _ => 200
  | DelRes.notFound => 404

/-- Confirmation message carried by a delete outcome. -/
def delMessage : DelRes → String
  | DelRes.deleted _ => "Menu item deleted"
  | DelRes.notFound => "Menu item not found"

/-- Store states reachable from the seed through any sequence of insert,
update, and delete requests. -/
inductive Reachable : List MenuItem → Prop
  | seed : Reachable seedMenuItems
  | post (s : List MenuItem) (b : Body) : Reachable s → Reachable (postHandler s b).1
  | put (s : List MenuItem) (idStr : String) (b : Body) :
      Reachable s → Reachable (putHandler s idStr b).1
  | del (s : List MenuItem) (idStr : String) :
      Reachable s → Reachable (deleteHandler s idStr).1

/-- The rule set every stored item satisfies: trimmed name of length at
least 3, trimmed description of length at least 10, positive price, a
category among the four allowed values, at least one ingredient, and an
availability value whose string form the boolean check accepts — an
actual boolean, one of the strings true, false, 1 and 0, a number 0 or 1,
or an array stringifying to one of these, stored raw. -/
def ValidItem (it : MenuItem) : Prop :=
  3 ≤ jsLength (trimJs it.name) ∧ 10 ≤ jsLength (trimJs it.description) ∧
  0 < it.price ∧ it.category ∈ categories ∧ it.ingredients ≠ [] ∧
  boolLikeStr (toStringEV it.available) = true

instance (it : MenuItem) : Decidable (ValidItem it) := by
  unfold ValidItem
  infer_instance

/-- A valid candidate body, the concrete scenario of the spec, with the
price given as a JSON number. -/
def teaBody : Body :=
  [("name", JVal.jstr "Iced Tea"),
   ("description", JVal.jstr "Cold brewed tea over ice"),
   ("price", JVal.jnum (350 / 100 : ℚ)),
   ("category", JVal.jstr "beverage"),
   ("ingredients", JVal.jarr [JVal.jstr "tea", JVal.jstr "ice"])]

/-- The same candidate with the price given as the string "3.50", which
the float check accepts and the handler coerces to a number. -/
def teaStrBody : Body :=
  [("name", JVal.jstr "Iced Tea"),
   ("description", JVal.jstr "Cold brewed tea over ice"),
   ("price", JVal.jstr "3.50"),
   ("category", JVal.jstr "beverage"),
   ("ingredients", JVal.jarr [JVal.jstr "tea", JVal.jstr "ice"])]

/-- The valid tea candidate with available supplied as the string true:
the boolean check accepts the spelling, and the handlers store the raw
string. -/
def availStrBody : Body :=
  [("name", JVal.jstr "Iced Tea"),
   ("description", JVal.jstr "Cold brewed tea over ice"),
   ("price", JVal.jnum (350 / 100 : ℚ)),
   ("category", JVal.jstr "beverage"),
   ("ingredients", JVal.jarr [JVal.jstr "tea", JVal.jstr "ice"]),
   ("available", JVal.jstr "true")]

/-- The candidate violating one rule in each of five fields. -/
def invalidCandidate : Body :=
  [("name", JVal.jstr "ab"),
   ("description", JVal.jstr "short"),
   ("price", JVal.jnum (-1)),
   ("category", JVal.jstr "snack"),
   ("ingredients", JVal.jarr [])]

/-- Deep equality between a stored item and a raw candidate body extended
with an assigned id: every persisted field other than the id carries
exactly the value the candidate supplied, with available defaulted to true
when the candidate omitted it. -/
def DeepEqPlusId (it : MenuItem) (b : Body) : Prop :=
  lookupJ b "name" = some (JVal.jstr it.name) ∧
  lookupJ b "description" = some (JVal.jstr it.description) ∧
  lookupJ b "price" = some (JVal.jnum it.price) ∧
  lookupJ b "category" = some (JVal.jstr it.category) ∧
  lookupJ b "ingredients" = some (JVal.jarr it.ingredients) ∧
  (lookupJ b "available" = some it.available ∨
    (lookupJ b "available" = none ∧ it.available = JVal.jbool true))

instance (it : MenuItem) (b : Body) : Decidable (DeepEqPlusId it b) := by
  unfold DeepEqPlusId
  infer_instance

/-- The relation that does hold between a stored item and the candidate it
was built from: the name and description are the candidate values after
the trim sanitizer, the price is the candidate value after numeric
coercion, the category and ingredients are the candidate values, and
available is the candidate value or defaults to true when absent. -/
def MatchesSanitized (it : MenuItem) (b : Body) : Prop :=
  lookupJ (sanitizeBody b) "name" = some (JVal.jstr it.name) ∧
  lookupJ (sanitizeBody b) "description" = some (JVal.jstr it.description) ∧
  (∃ v, lookupJ b "price" = some v ∧ parsePrice v = some it.price) ∧
  lookupJ b "category" = some (JVal.jstr it.category) ∧
  lookupJ b "ingredients" = some (JVal.jarr it.ingredients) ∧
  (lookupJ b "available" = some it.available ∨
    (lookupJ b "available" = none ∧ it.available = JVal.jbool true))

/-- The six body fields the insert and update handlers read; the id is
deliberately not among them. -/
def knownKeys : List String :=
  ["name", "description", "price", "category", "ingredients", "available"]

section ReducibleRat

attribute [local semireducible] Rat.ofScientific Rat.mul Rat.inv Rat.add Rat.sub

/-- Field lookup walks past a head pair with a different key. -/
theorem lookupJ_cons (p : String × JVal) (b : Body) (k : String) :
    lookupJ (p :: b) k = if p.1 == k then some p.2 else lookupJ b k := by
  cases h : p.1 == k <;> simp [lookupJ, List.find?, h]

/-- Field lookup ignores a head pair with a different key. -/
theorem lookupJ_cons_ne (p : String × JVal) (b : Body) (k : String)
    (h : p.1 ≠ k) : lookupJ (p :: b) k = lookupJ b k := by
  rw [lookupJ_cons, if_neg]
  simp [h]

/-- Sanitizing distributes over a cons. -/
theorem sanitizeBody_cons (p : String × JVal) (b : Body) :
    sanitizeBody (p :: b) =
      (if p.1 == "name" || p.1 == "description" then (p.1, trimVal p.2) else p) ::
        sanitizeBody b := rfl

/-- Lookup in the sanitized body: the name and description values are seen
through the trim sanitizer, every other field is untouched. -/
theorem lookupJ_sanitizeBody (b : Body) (k : String) :
    lookupJ (sanitizeBody b) k =
      if k = "name" ∨ k = "description" then (lookupJ b k).map trimVal
      else lookupJ b k := by
  induction b with
  | nil =>
    by_cases h : k = "name" ∨ k = "description" <;> simp [lookupJ, sanitizeBody, h]
  | cons p rest ih =>
    rw [sanitizeBody_cons]
    by_cases hk : p.1 = k
    · subst hk
      by_cases h : p.1 = "name" ∨ p.1 = "description"
      · have hb : (p.1 == "name" || p.1 == "description") = true := by
          rcases h with h | h <;> simp [h]
        rw [if_pos hb, lookupJ_cons, lookupJ_cons]
        simp [h]
      · have hb : (p.1 == "name" || p.1 == "description") = false := by
          push_neg at h
          simp [h.1, h.2]
        rw [if_neg (by simp [hb] : ¬ (p.1 == "name" || p.1 == "description") = true),
          lookupJ_cons, lookupJ_cons]
        simp [h]
    · have hhead : ((if p.1 == "name" || p.1 == "description" then (p.1, trimVal p.2)
          else p) : String × JVal).1 = p.1 := by
        by_cases hb : (p.1 == "name" || p.1 == "description") = true
        · rw [if_pos hb]
        · rw [if_neg hb]
      rw [lookupJ_cons, hhead, if_neg (by simp [hk]), ih, lookupJ_cons_ne p rest k hk]

/-- Dropping a satisfied head prefix twice is the same as dropping once. -/
theorem dropWhile_idem (p : Char → Bool) (l : List Char) :
    (l.dropWhile p).dropWhile p = l.dropWhile p := by
  induction l with
  | nil => rfl
  | cons c ls ih =>
    by_cases h : p c
    · simp [List.dropWhile_cons, h, ih]
    · simp [List.dropWhile_cons, h]

/-- A prefix of a list with an unsatisfied head also has an unsatisfied
head. -/
theorem dropWhile_eq_self_of_prefix (p : Char → Bool) {t l : List Char}
    (ht : t <+: l) (hl : l.dropWhile p = l) : t.dropWhile p = t := by
  cases t with
  | nil => rfl
  | cons c cs =>
    obtain ⟨r, hr⟩ := ht
    rw [← hr] at hl
    rw [List.cons_append, List.dropWhile_cons] at hl
    rw [List.dropWhile_cons]
    by_cases h : p c
    · exfalso
      rw [if_pos h] at hl
      have h2 : ((cs ++ r).dropWhile p).length ≤ (cs ++ r).length :=
        (List.dropWhile_suffix p).length_le
      rw [hl] at h2
      simp at h2
    · rw [if_neg h]

/-- The trim sanitizer is idempotent. -/
theorem trimJs_trimJs (s : String) : trimJs (trimJs s) = trimJs s := by
  unfold trimJs
  have hdata : (String.mk (((s.data.dropWhile jsWs).reverse.dropWhile
      jsWs).reverse)).data = ((s.data.dropWhile jsWs).reverse.dropWhile
      jsWs).reverse := rfl
  rw [hdata]
  apply congrArg String.mk
  have hm : (s.data.dropWhile jsWs).dropWhile jsWs = s.data.dropWhile jsWs :=
    dropWhile_idem jsWs s.data
  have hsuf : ((s.data.dropWhile jsWs).reverse.dropWhile jsWs) <:+
      (s.data.dropWhile jsWs).reverse := List.dropWhile_suffix jsWs
  have hpre := List.reverse_prefix.mpr hsuf
  rw [List.reverse_reverse] at hpre
  have hX : ((((s.data.dropWhile jsWs).reverse.dropWhile jsWs).reverse).dropWhile
      jsWs) = ((s.data.dropWhile jsWs).reverse.dropWhile jsWs).reverse :=
    dropWhile_eq_self_of_prefix jsWs hpre hm
  rw [hX, List.reverse_reverse, dropWhile_idem]

/-- A clean name chain means the field is a string whose trimmed form has
length at least 3. -/
theorem checkName_eq_nil : ∀ {o : Option JVal}, checkName o = [] →
    ∃ s, o = some (JVal.jstr s) ∧ 3 ≤ jsLength (trimJs s)
  | some (JVal.jstr s), h => ⟨s, rfl, by
      by_contra hn
      simp [checkName, hn] at h⟩
  | none, h => by simp [checkName] at h
  | some JVal.jnull, h => by simp [checkName] at h
  | some (JVal.jbool b), h => by simp [checkName] at h
  | some (JVal.jnum q), h => by simp [checkName] at h
  | some (JVal.jarr xs), h => by simp [checkName] at h

/-- A clean description chain means the field is a string whose trimmed
form has length at least 10. -/
theorem checkDescription_eq_nil : ∀ {o : Option JVal}, checkDescription o = [] →
    ∃ s, o = some (JVal.jstr s) ∧ 10 ≤ jsLength (trimJs s)
  | some (JVal.jstr s), h => ⟨s, rfl, by
      by_contra hn
      simp [checkDescription, hn] at h⟩
  | none, h => by simp [checkDescription] at h
  | some JVal.jnull, h => by simp [checkDescription] at h
  | some (JVal.jbool b), h => by simp [checkDescription] at h
  | some (JVal.jnum q), h => by simp [checkDescription] at h
  | some (JVal.jarr xs), h => by simp [checkDescription] at h

/-- A clean price chain means the field is present and its numeric
reading is a positive value. -/
theorem checkPrice_eq_nil : ∀ {o : Option JVal}, checkPrice o = [] →
    ∃ v q, o = some v ∧ parsePrice v = some q ∧ 0 < q
  | some v, h => by
    cases hq : parsePrice v with
    | none => simp [checkPrice, hq] at h
    | some q =>
      refine ⟨v, q, rfl, hq, ?_⟩
      by_contra hn
      simp [checkPrice, hq, hn] at h
  | none, h => by simp [checkPrice] at h

/-- A clean category chain means the field is one of the four allowed
strings. -/
theorem checkCategory_eq_nil : ∀ {o : Option JVal}, checkCategory o = [] →
    ∃ s, o = some (JVal.jstr s) ∧ s ∈ categories
  | some (JVal.jstr s), h => ⟨s, rfl, by
      by_contra hn
      simp [checkCategory, hn] at h⟩
  | none, h => by simp [checkCategory] at h
  | some JVal.jnull, h => by simp [checkCategory] at h
  | some (JVal.jbool b), h => by simp [checkCategory] at h
  | some (JVal.jnum q), h => by simp [checkCategory] at h
  | some (JVal.jarr xs), h => by simp [checkCategory] at h

/-- A clean ingredients chain means the field is a nonempty array. -/
theorem checkIngredients_eq_nil : ∀ {o : Option JVal}, checkIngredients o = [] →
    ∃ xs, o = some (JVal.jarr xs) ∧ xs ≠ []
  | some (JVal.jarr xs), h => ⟨xs, rfl, by
      by_contra hn
      simp [checkIngredients, hn] at h⟩
  | none, h => by simp [checkIngredients] at h
  | some JVal.jnull, h => by simp [checkIngredients] at h
  | some (JVal.jbool b), h => by simp [checkIngredients] at h
  | some (JVal.jnum q), h => by simp [checkIngredients] at h
  | some (JVal.jstr s), h => by simp [checkIngredients] at h

/-- A clean available chain means the field is absent or a value whose
string form the boolean check accepts. -/
theorem checkAvailable_eq_nil : ∀ {o : Option JVal}, checkAvailable o = [] →
    o = none ∨ ∃ v, o = some v ∧ boolLikeStr (toStringEV v) = true
  | none, _ => Or.inl rfl
  | some v, h => by
    refine Or.inr ⟨v, rfl, ?_⟩
    by_contra hb
    simp [checkAvailable, hb] at h

/-- Passing validation is passing all six field chains. -/
theorem validateErrors_eq_nil {b : Body} (h : validateErrors b = []) :
    checkName (lookupJ b "name") = [] ∧
    checkDescription (lookupJ b "description") = [] ∧
    checkPrice (lookupJ b "price") = [] ∧
    checkCategory (lookupJ b "category") = [] ∧
    checkIngredients (lookupJ b "ingredients") = [] ∧
    checkAvailable (lookupJ b "available") = [] := by
  unfold validateErrors at h
  simp only [List.append_eq_nil] at h
  obtain ⟨⟨⟨⟨⟨h1, h2⟩, h3⟩, h4⟩, h5⟩, h6⟩ := h
  exact ⟨h1, h2, h3, h4, h5, h6⟩

/-- The id written by the item builder. -/
theorem mkFromBody_id (i : Int) (b : Body) : (mkFromBody i b).id = i := rfl

/-- An item built from a body that passes validation satisfies every §3
storage rule. -/
theorem mkFromBody_valid (i : Int) (b : Body) (h : validateErrors b = []) :
    ValidItem (mkFromBody i b) := by
  obtain ⟨hn, hd, hp, hc, hi, ha⟩ := validateErrors_eq_nil h
  obtain ⟨sn, hno, hnl⟩ := checkName_eq_nil hn
  obtain ⟨sd, hdo, hdl⟩ := checkDescription_eq_nil hd
  obtain ⟨pv, pq, hpo, hpc, hppos⟩ := checkPrice_eq_nil hp
  obtain ⟨sc, hco, hcin⟩ := checkCategory_eq_nil hc
  obtain ⟨xs, hio, hine⟩ := checkIngredients_eq_nil hi
  refine ⟨?_, ?_, ?_, ?_, ?_, ?_⟩
  · show 3 ≤ jsLength (trimJs (getStr (lookupJ (sanitizeBody b) "name")))
    rw [lookupJ_sanitizeBody, if_pos (Or.inl rfl), hno]
    show 3 ≤ jsLength (trimJs (trimJs sn))
    rw [trimJs_trimJs]
    exact hnl
  · show 10 ≤ jsLength (trimJs (getStr (lookupJ (sanitizeBody b) "description")))
    rw [lookupJ_sanitizeBody, if_pos (Or.inr rfl), hdo]
    show 10 ≤ jsLength (trimJs (trimJs sd))
    rw [trimJs_trimJs]
    exact hdl
  · show 0 < getPrice (lookupJ (sanitizeBody b) "price")
    rw [lookupJ_sanitizeBody, if_neg (by decide), hpo]
    show 0 < (parsePrice pv).getD 0
    rw [hpc]
    exact hppos
  · show getStr (lookupJ (sanitizeBody b) "category") ∈ categories
    rw [lookupJ_sanitizeBody, if_neg (by decide), hco]
    exact hcin
  · show getArr (lookupJ (sanitizeBody b) "ingredients") ≠ []
    rw [lookupJ_sanitizeBody, if_neg (by decide), hio]
    exact hine
  · show boolLikeStr (toStringEV (getAvail (lookupJ (sanitizeBody b) "available"))) = true
    rw [lookupJ_sanitizeBody, if_neg (by decide)]
    rcases checkAvailable_eq_nil ha with hnone | ⟨v, hsome, hbl⟩
    · rw [hnone]
      rfl
    · rw [hsome]
      exact hbl

/-- An item built from a body that passes validation carries exactly the
sanitized candidate fields. -/
theorem mkFromBody_matches (i : Int) (b : Body) (h : validateErrors b = []) :
    MatchesSanitized (mkFromBody i b) b := by
  obtain ⟨hn, hd, hp, hc, hi, ha⟩ := validateErrors_eq_nil h
  obtain ⟨sn, hno, _⟩ := checkName_eq_nil hn
  obtain ⟨sd, hdo, _⟩ := checkDescription_eq_nil hd
  obtain ⟨pv, pq, hpo, hpc, _⟩ := checkPrice_eq_nil hp
  obtain ⟨sc, hco, _⟩ := checkCategory_eq_nil hc
  obtain ⟨xs, hio, _⟩ := checkIngredients_eq_nil hi
  refine ⟨?_, ?_, ?_, ?_, ?_, ?_⟩
  · show lookupJ (sanitizeBody b) "name" =
      some (JVal.jstr (getStr (lookupJ (sanitizeBody b) "name")))
    rw [lookupJ_sanitizeBody, if_pos (Or.inl rfl), hno]
    rfl
  · show lookupJ (sanitizeBody b) "description" =
      some (JVal.jstr (getStr (lookupJ (sanitizeBody b) "description")))
    rw [lookupJ_sanitizeBody, if_pos (Or.inr rfl), hdo]
    rfl
  · refine ⟨pv, hpo, ?_⟩
    show parsePrice pv = some (getPrice (lookupJ (sanitizeBody b) "price"))
    rw [lookupJ_sanitizeBody, if_neg (by decide), hpo]
    show parsePrice pv = some ((parsePrice pv).getD 0)
    rw [hpc]
    rfl
  · show lookupJ b "category" =
      some (JVal.jstr (getStr (lookupJ (sanitizeBody b) "category")))
    rw [lookupJ_sanitizeBody, if_neg (by decide), hco]
    rfl
  · show lookupJ b "ingredients" =
      some (JVal.jarr (getArr (lookupJ (sanitizeBody b) "ingredients")))
    rw [lookupJ_sanitizeBody, if_neg (by decide), hio]
    rfl
  · cases hav : lookupJ b "available" with
    | none =>
      refine Or.inr ⟨rfl, ?_⟩
      show getAvail (lookupJ (sanitizeBody b) "available") = JVal.jbool true
      rw [lookupJ_sanitizeBody, if_neg (by decide), hav]
      rfl
    | some v =>
      refine Or.inl ?_
      show some v = some (getAvail (lookupJ (sanitizeBody b) "available"))
      rw [lookupJ_sanitizeBody, if_neg (by decide), hav]
      rfl

/-- A successful lookup by id splits the collection into an untouched
front with no matching id, the first matching item, and the rest. -/
theorem findItem_eq_some : ∀ {l : List MenuItem} {i : Int} {x : MenuItem},
    findItem l i = some x →
    ∃ pre post, l = pre ++ x :: post ∧ (∀ y ∈ pre, y.id ≠ i) ∧ x.id = i
  | [], i, x, h => by simp [findItem, List.find?] at h
  | it :: rest, i, x, h => by
    unfold findItem List.find? at h
    cases hb : (it.id == i) with
    | true =>
      rw [hb] at h
      refine ⟨[], rest, ?_, by simp, ?_⟩
      · simp at h
        rw [h]
        rfl
      · simp at h
        rw [← h]
        exact eq_of_beq hb
    | false =>
      rw [hb] at h
      obtain ⟨pre, post, hl, hpre, hx⟩ := findItem_eq_some (l := rest) h
      refine ⟨it :: pre, post, by rw [List.cons_append, hl], ?_, hx⟩
      intro y hy
      rcases List.mem_cons.mp hy with hy | hy
      · rw [hy]
        exact fun he => by simp [he] at hb
      · exact hpre y hy

/-- A missed lookup by id means no element matches. -/
theorem findItem_eq_none {l : List MenuItem} {i : Int}
    (h : ∀ y ∈ l, y.id ≠ i) : findItem l i = none := by
  unfold findItem
  rw [List.find?_eq_none]
  intro x hx
  simp [h x hx]

/-- Updating through a decomposition with no match in the front rewrites
exactly the splitting item. -/
theorem updateFirst_decomp (f : MenuItem → MenuItem) {pre post : List MenuItem}
    {x : MenuItem} {i : Int} (hpre : ∀ y ∈ pre, y.id ≠ i) (hx : x.id = i) :
    updateFirst f i (pre ++ x :: post) = pre ++ f x :: post := by
  induction pre with
  | nil =>
    simp [updateFirst, hx]
  | cons y rest ih =>
    rw [List.cons_append]
    unfold updateFirst
    rw [if_neg (hpre y (List.mem_cons_self y rest)), List.cons_append,
      ih (fun z hz => hpre z (List.mem_cons_of_mem y hz))]

/-- Removing through a decomposition with no match in the front drops
exactly the splitting item. -/
theorem removeFirst_decomp {pre post : List MenuItem} {x : MenuItem} {i : Int}
    (hpre : ∀ y ∈ pre, y.id ≠ i) (hx : x.id = i) :
    removeFirst i (pre ++ x :: post) = pre ++ post := by
  induction pre with
  | nil =>
    simp [removeFirst, hx]
  | cons y rest ih =>
    rw [List.cons_append]
    unfold removeFirst
    rw [if_neg (hpre y (List.mem_cons_self y rest)), List.cons_append,
      ih (fun z hz => hpre z (List.mem_cons_of_mem y hz))]

/-- A member of an updated collection is an old member or the rewrite of
an old member. -/
theorem mem_updateFirst (f : MenuItem → MenuItem) (i : Int) :
    ∀ {l : List MenuItem} {x : MenuItem}, x ∈ updateFirst f i l →
      x ∈ l ∨ ∃ y, y ∈ l ∧ x = f y
  | [], x, h => by simp [updateFirst] at h
  | it :: rest, x, h => by
    unfold updateFirst at h
    by_cases hb : it.id = i
    · rw [if_pos hb] at h
      rcases List.mem_cons.mp h with h | h
      · exact Or.inr ⟨it, List.mem_cons_self it rest, h⟩
      · exact Or.inl (List.mem_cons_of_mem it h)
    · rw [if_neg hb] at h
      rcases List.mem_cons.mp h with h | h
      · exact Or.inl (h ▸ List.mem_cons_self it rest)
      · rcases mem_updateFirst f i h with h | ⟨y, hy, hxy⟩
        · exact Or.inl (List.mem_cons_of_mem it h)
        · exact Or.inr ⟨y, List.mem_cons_of_mem it hy, hxy⟩

/-- A member of a collection after removal was a member before. -/
theorem mem_removeFirst (i : Int) :
    ∀ {l : List MenuItem} {x : MenuItem}, x ∈ removeFirst i l → x ∈ l
  | [], x, h => by simp [removeFirst] at h
  | it :: rest, x, h => by
    unfold removeFirst at h
    by_cases hb : it.id = i
    · rw [if_pos hb] at h
      exact List.mem_cons_of_mem it h
    · rw [if_neg hb] at h
      rcases List.mem_cons.mp h with h | h
      · exact h ▸ List.mem_cons_self it rest
      · exact List.mem_cons_of_mem it (mem_removeFirst i h)

/-- The seed of a maximum fold is a lower bound of the result. -/
theorem le_foldl_max : ∀ (l : List Int) (x : Int), x ≤ l.foldl max x
  | [], x => le_refl x
  | c :: cs, x =>
    le_trans (le_max_left x c) (le_foldl_max cs (max x c))

/-- Every member of the list is a lower bound of a maximum fold. -/
theorem mem_le_foldl_max : ∀ {l : List Int} {y : Int} (x : Int), y ∈ l →
    y ≤ l.foldl max x
  | [], y, x, h => by simp at h
  | c :: cs, y, x, h => by
    rcases List.mem_cons.mp h with h | h
    · rw [h]
      exact le_trans (le_max_right x c) (le_foldl_max cs (max x c))
    · exact mem_le_foldl_max (max x c) h

/-- A maximum fold returns its seed or some member. -/
theorem foldl_max_mem : ∀ (l : List Int) (x : Int),
    l.foldl max x = x ∨ l.foldl max x ∈ l
  | [], _ => Or.inl rfl
  | c :: cs, x => by
    rw [List.foldl_cons]
    rcases foldl_max_mem cs (max x c) with h | h
    · rcases max_choice x c with hm | hm
      · exact Or.inl (by rw [h, hm])
      · exact Or.inr (by rw [h, hm]; exact List.mem_cons_self c cs)
    · exact Or.inr (List.mem_cons_of_mem c h)

/-- Every stored id is strictly below the next assigned id. -/
theorem nextId_gt (items : List MenuItem) : ∀ it ∈ items, it.id < nextId items := by
  intro it hit
  cases items with
  | nil => simp at hit
  | cons x rest =>
    show it.id < (rest.map (fun y => y.id)).foldl max x.id + 1
    have hle : it.id ≤ (rest.map (fun y => y.id)).foldl max x.id := by
      rcases List.mem_cons.mp hit with h | h
      · rw [h]
        exact le_foldl_max _ _
      · exact mem_le_foldl_max _ (List.mem_map_of_mem (fun y => y.id) h)
    omega

/-- On a nonempty collection the next assigned id is one more than the id
of some stored item. -/
theorem nextId_exists (items : List MenuItem) (h : items ≠ []) :
    ∃ y ∈ items, nextId items = y.id + 1 := by
  cases items with
  | nil => exact absurd rfl h
  | cons x rest =>
    show ∃ y ∈ x :: rest, (rest.map (fun z => z.id)).foldl max x.id + 1 = y.id + 1
    rcases foldl_max_mem (rest.map (fun z => z.id)) x.id with hm | hm
    · exact ⟨x, List.mem_cons_self x rest, by rw [hm]⟩
    · obtain ⟨y, hy, hid⟩ := List.mem_map.mp hm
      exact ⟨y, List.mem_cons_of_mem x hy, by rw [← hid]⟩

/-- Appending an item whose id is fresh makes it the lookup result for its
own id. -/
theorem findItem_append_new (items : List MenuItem) (x : MenuItem)
    (h : ∀ y ∈ items, y.id ≠ x.id) : findItem (items ++ [x]) x.id = some x := by
  induction items with
  | nil => simp [findItem, List.find?]
  | cons y rest ih =>
    rw [List.cons_append]
    unfold findItem List.find?
    have hb : (y.id == x.id) = false := by simp [h y (List.mem_cons_self y rest)]
    rw [hb]
    exact ih (fun z hz => h z (List.mem_cons_of_mem y hz))

/-- Lookup through a decomposition with no match in the front returns the
splitting item. -/
theorem findItem_decomp {pre post : List MenuItem} {x : MenuItem} {i : Int}
    (hpre : ∀ y ∈ pre, y.id ≠ i) (hx : x.id = i) :
    findItem (pre ++ x :: post) i = some x := by
  induction pre with
  | nil =>
    simp [findItem, List.find?, hx]
  | cons y rest ih =>
    rw [List.cons_append]
    unfold findItem List.find?
    have hb : (y.id == i) = false := by simp [hpre y (List.mem_cons_self y rest)]
    rw [hb]
    exact ih (fun z hz => hpre z (List.mem_cons_of_mem y hz))

/-- Rewriting items without touching ids leaves the id sequence unchanged. -/
theorem updateFirst_map_id (f : MenuItem → MenuItem) (i : Int)
    (hf : ∀ y, (f y).id = y.id) :
    ∀ l : List MenuItem,
      (updateFirst f i l).map (fun it => it.id) = l.map (fun it => it.id)
  | [] => rfl
  | it :: rest => by
    unfold updateFirst
    by_cases hb : it.id = i
    · rw [if_pos hb]
      simp [hf it]
    · rw [if_neg hb]
      simp [updateFirst_map_id f i hf rest]

/-- Removal yields a sublist. -/
theorem removeFirst_sublist (i : Int) :
    ∀ l : List MenuItem, (removeFirst i l).Sublist l
  | [] => List.Sublist.refl []
  | it :: rest => by
    unfold removeFirst
    by_cases hb : it.id = i
    · rw [if_pos hb]
      exact List.sublist_cons_self it rest
    · rw [if_neg hb]
      exact List.Sublist.cons₂ it (removeFirst_sublist i rest)

/-- In every reachable store state the stored ids are pairwise distinct:
the seed ids are distinct, insert appends an id above every stored one,
update keeps every id, and delete only removes. -/
theorem reachable_ids_nodup (s : List MenuItem) (h : Reachable s) :
    (s.map (fun it => it.id)).Nodup := by
  induction h with
  | seed => decide
  | post s b _ ih =>
    by_cases hv : validateErrors b = []
    · rw [show (postHandler s b).1 = s ++ [mkFromBody (nextId s) b] from by
        simp [postHandler, hv]]
      rw [List.map_append]
      refine List.Nodup.append ih (by simp) ?_
      intro a ha hb
      simp [mkFromBody_id] at hb
      obtain ⟨y, hy, hid⟩ := List.mem_map.mp ha
      have := nextId_gt s y hy
      rw [hid, hb] at this
      exact lt_irrefl _ this
    · rw [show (postHandler s b).1 = s from by simp [postHandler, hv]]
      exact ih
  | put s idStr b _ ih =>
    by_cases hv : validateErrors b = []
    · cases hp : parseIntJs idStr with
      | none =>
        rw [show (putHandler s idStr b).1 = s from by simp [putHandler, hv, hp]]
        exact ih
      | some i =>
        cases hf : findItem s i with
        | none =>
          rw [show (putHandler s idStr b).1 = s from by
            simp [putHandler, hv, hp, hf]]
          exact ih
        | some x =>
          rw [show (putHandler s idStr b).1 =
              updateFirst (fun old => mkFromBody old.id b) i s from by
            simp [putHandler, hv, hp, hf]]
          rw [updateFirst_map_id (fun old => mkFromBody old.id b) i
            (fun y => mkFromBody_id y.id b) s]
          exact ih
    · rw [show (putHandler s idStr b).1 = s from by simp [putHandler, hv]]
      exact ih
  | del s idStr _ ih =>
    cases hp : parseIntJs idStr with
    | none =>
      rw [show (deleteHandler s idStr).1 = s from by simp [deleteHandler, hp]]
      exact ih
    | some i =>
      cases hf : findItem s i with
      | none =>
        rw [show (deleteHandler s idStr).1 = s from by
          simp [deleteHandler, hp, hf]]
        exact ih
      | some x =>
        rw [show (deleteHandler s idStr).1 = removeFirst i s from by
          simp [deleteHandler, hp, hf]]
        exact List.Nodup.sublist ((removeFirst_sublist i s).map (fun it => it.id)) ih

/-- C5: validation does not stop at the first failure. On the candidate
with name "ab", description "short", price -1, category "snack" and empty
ingredients, the returned error list is exactly the five per-field
violations, in field order, hence at least five entries with one entry per
violated rule. -/
theorem c5_collects_all_violations :
    validateErrors invalidCandidate =
      [nameLenErr, descLenErr, priceErr, catInErr, ingErr] ∧
    5 ≤ (validateErrors invalidCandidate).length := by decide

/-- C1 counterexample: for the id 999, absent from the seed collection,
and an invalid candidate, the update route answers with validation failure
and status 400, not with the claimed NotFound 404, because the validation
middleware runs before the existence check. The collection is still left
unchanged. -/
theorem c1_counterexample :
    lookupById seedMenuItems "999" = none ∧
    (putHandler seedMenuItems "999" invalidCandidate).2 ≠ PutRes.notFound ∧
    putStatus (putHandler seedMenuItems "999" invalidCandidate).2 = 400 ∧
    (putHandler seedMenuItems "999" invalidCandidate).1 = seedMenuItems := by decide

/-- C4 counterexample: the candidate with the price given as the string
"3.50" passes validation, and insert followed by get of the assigned id 7
succeeds, but the returned item is not deep-equal to the candidate plus id
and defaulted available: the stored price is the coerced number 3.5, not
the supplied string. -/
theorem c4_counterexample :
    validateErrors teaStrBody = [] ∧
    (postHandler seedMenuItems teaStrBody).2 =
      PostRes.created (mkFromBody 7 teaStrBody) ∧
    lookupById (postHandler seedMenuItems teaStrBody).1 "7" =
      some (mkFromBody 7 teaStrBody) ∧
    ¬ DeepEqPlusId (mkFromBody 7 teaStrBody) teaStrBody := by decide

/-- C7 counterexample: the path parameter "6abc" is not a numeric value,
yet get does not behave as for an absent id: the integer parse reads the
leading digits, so the item with id 6 is returned with status 200, not
NotFound. -/
theorem c7_counterexample :
    lookupById seedMenuItems "6abc" = some item6 ∧
    getStatus (lookupById seedMenuItems "6abc") = 200 := by decide

/-- C1 (amended): update on an id absent from the collection never mutates
the collection; it answers NotFound 404 when the candidate passes
validation, and ValidationFailed 400 when it does not, because the
validation middleware runs before the existence check. -/
theorem c1_update_missing_id (items : List MenuItem) (idStr : String) (b : Body)
    (h : lookupById items idStr = none) :
    (putHandler items idStr b).1 = items ∧
    (validateErrors b = [] → (putHandler items idStr b).2 = PutRes.notFound ∧
      putStatus (putHandler items idStr b).2 = 404) ∧
    (validateErrors b ≠ [] →
      (putHandler items idStr b).2 = PutRes.badRequest (validateErrors b) ∧
      putStatus (putHandler items idStr b).2 = 400) := by
  by_cases hv : validateErrors b = []
  · cases hp : parseIntJs idStr with
    | none =>
      refine ⟨by simp [putHandler, hv, hp], fun _ => ?_, fun hne => absurd hv hne⟩
      constructor
      · simp [putHandler, hv, hp]
      · simp [putHandler, hv, hp, putStatus]
    | some i =>
      have hf : findItem items i = none := by
        unfold lookupById at h
        rw [hp] at h
        exact h
      refine ⟨by simp [putHandler, hv, hp, hf], fun _ => ?_, fun hne => absurd hv hne⟩
      constructor
      · simp [putHandler, hv, hp, hf]
      · simp [putHandler, hv, hp, hf, putStatus]
  · refine ⟨by simp [putHandler, hv], fun he => absurd he hv, fun _ => ?_⟩
    constructor
    · simp [putHandler, hv]
    · simp [putHandler, hv, putStatus]

/-- Witness for C1 at the seed state, the absent id 999, and a valid
candidate. -/
theorem c1_update_missing_id_witness :
    (putHandler seedMenuItems "999" teaBody).1 = seedMenuItems ∧
    (putHandler seedMenuItems "999" teaBody).2 = PutRes.notFound :=
  ⟨(c1_update_missing_id seedMenuItems "999" teaBody (by decide)).1,
    ((c1_update_missing_id seedMenuItems "999" teaBody (by decide)).2.1 (by decide)).1⟩

/-- C2: a created item receives id 1 on an empty collection and otherwise
an id strictly above every stored id and equal to some stored id plus one,
hence the maximum plus one; in particular, deleting id 6 from the seed and
inserting the valid tea candidate assigns the reused id 6. -/
theorem c2_fresh_id_policy :
    (∀ (items : List MenuItem) (b : Body) (it : MenuItem),
      (postHandler items b).2 = PostRes.created it →
      (items = [] → it.id = 1) ∧ (∀ y ∈ items, y.id < it.id) ∧
      (items ≠ [] → ∃ y ∈ items, it.id = y.id + 1)) ∧
    ((postHandler (deleteHandler seedMenuItems "6").1 teaBody).2 =
      PostRes.created (mkFromBody 6 teaBody) ∧ (mkFromBody 6 teaBody).id = 6) := by
  constructor
  · intro items b it h
    by_cases hv : validateErrors b = []
    · have hit : it = mkFromBody (nextId items) b := by
        simp [postHandler, hv] at h
        exact h.symm
      rw [hit, mkFromBody_id]
      refine ⟨?_, ?_, ?_⟩
      · intro he
        subst he
        rfl
      · exact nextId_gt items
      · intro hne
        obtain ⟨y, hy, heq⟩ := nextId_exists items hne
        exact ⟨y, hy, heq⟩
    · simp [postHandler, hv] at h
  · exact ⟨by decide, by decide⟩

/-- Witness for C2: inserting into the seed yields an id above the id of
the seed item 6. -/
theorem c2_fresh_id_policy_witness :
    item6.id < (mkFromBody 7 teaBody).id :=
  (c2_fresh_id_policy.1 seedMenuItems teaBody (mkFromBody 7 teaBody)
    (by decide)).2.1 item6 (by decide)

/-- C3 counterexample: the tea candidate with available given as the
string true passes validation, one insert from the seed reaches a state
containing the created item, and that stored item carries the raw string
as its available field, which is not a boolean — the original invariant
fails on the program. -/
theorem c3_counterexample :
    validateErrors availStrBody = [] ∧
    (postHandler seedMenuItems availStrBody).2 =
      PostRes.created (mkFromBody 7 availStrBody) ∧
    mkFromBody 7 availStrBody ∈ (postHandler seedMenuItems availStrBody).1 ∧
    (mkFromBody 7 availStrBody).available = JVal.jstr "true" ∧
    (mkFromBody 7 availStrBody).available ≠ JVal.jbool true ∧
    (mkFromBody 7 availStrBody).available ≠ JVal.jbool false ∧
    Reachable (postHandler seedMenuItems availStrBody).1 :=
  ⟨by decide, by decide, by decide, by decide, by decide, by decide,
    Reachable.post seedMenuItems availStrBody Reachable.seed⟩

/-- C3 (amended): in every store state reachable from the seed by any
sequence of insert, update and delete requests, every stored item has a
trimmed name of length at least 3, a trimmed description of length at
least 10, a positive price, a category among the four allowed values, and
at least one ingredient; its available field is a value the boolean check
accepts — an actual boolean, one of the strings true, false, 1 and 0, a
number 0 or 1, or an array stringifying to one of these — stored raw,
with the boolean true substituted when the candidate omitted it. -/
theorem c3_stored_items_valid (s : List MenuItem) (h : Reachable s) :
    ∀ it ∈ s, ValidItem it := by
  induction h with
  | seed => decide
  | post s b _ ih =>
    intro it hit
    by_cases hv : validateErrors b = []
    · rw [show (postHandler s b).1 = s ++ [mkFromBody (nextId s) b] from by
        simp [postHandler, hv]] at hit
      rcases List.mem_append.mp hit with hmem | hmem
      · exact ih it hmem
      · rw [List.mem_singleton.mp hmem]
        exact mkFromBody_valid _ _ hv
    · rw [show (postHandler s b).1 = s from by simp [postHandler, hv]] at hit
      exact ih it hit
  | put s idStr b _ ih =>
    intro it hit
    by_cases hv : validateErrors b = []
    · cases hp : parseIntJs idStr with
      | none =>
        rw [show (putHandler s idStr b).1 = s from by
          simp [putHandler, hv, hp]] at hit
        exact ih it hit
      | some i =>
        cases hf : findItem s i with
        | none =>
          rw [show (putHandler s idStr b).1 = s from by
            simp [putHandler, hv, hp, hf]] at hit
          exact ih it hit
        | some x =>
          rw [show (putHandler s idStr b).1 =
              updateFirst (fun old => mkFromBody old.id b) i s from by
            simp [putHandler, hv, hp, hf]] at hit
          rcases mem_updateFirst _ _ hit with hmem | ⟨y, _, hxy⟩
          · exact ih it hmem
          · rw [hxy]
            exact mkFromBody_valid _ _ hv
    · rw [show (putHandler s idStr b).1 = s from by simp [putHandler, hv]] at hit
      exact ih it hit
  | del s idStr _ ih =>
    intro it hit
    cases hp : parseIntJs idStr with
    | none =>
      rw [show (deleteHandler s idStr).1 = s from by simp [deleteHandler, hp]] at hit
      exact ih it hit
    | some i =>
      cases hf : findItem s i with
      | none =>
        rw [show (deleteHandler s idStr).1 = s from by
          simp [deleteHandler, hp, hf]] at hit
        exact ih it hit
      | some x =>
        rw [show (deleteHandler s idStr).1 = removeFirst i s from by
          simp [deleteHandler, hp, hf]] at hit
        exact ih it (mem_removeFirst i hit)

/-- Witness for C3 at the seed state and its first item. -/
theorem c3_stored_items_valid_witness : ValidItem item1 :=
  c3_stored_items_valid seedMenuItems Reachable.seed item1 (by decide)

/-- C4 (amended): for every candidate passing validation, insert creates
an item carrying the fresh id, and lookup of that id returns it; the item
agrees with the candidate after sanitization, that is with name and
description trimmed, price coerced to a number, and available defaulted to
true when absent. -/
theorem c4_insert_then_get (items : List MenuItem) (b : Body)
    (h : validateErrors b = []) :
    (postHandler items b).2 = PostRes.created (mkFromBody (nextId items) b) ∧
    findItem (postHandler items b).1 (nextId items) =
      some (mkFromBody (nextId items) b) ∧
    MatchesSanitized (mkFromBody (nextId items) b) b := by
  refine ⟨by simp [postHandler, h], ?_, mkFromBody_matches _ _ h⟩
  rw [show (postHandler items b).1 = items ++ [mkFromBody (nextId items) b] from by
    simp [postHandler, h]]
  have hfresh : ∀ y ∈ items, y.id ≠ (mkFromBody (nextId items) b).id := by
    intro y hy
    rw [mkFromBody_id]
    exact ne_of_lt (nextId_gt items y hy)
  have hfind := findItem_append_new items (mkFromBody (nextId items) b) hfresh
  rw [mkFromBody_id] at hfind
  exact hfind

/-- Witness for C4 at the seed state and the valid tea candidate. -/
theorem c4_insert_then_get_witness :
    (postHandler seedMenuItems teaBody).2 =
      PostRes.created (mkFromBody (nextId seedMenuItems) teaBody) ∧
    findItem (postHandler seedMenuItems teaBody).1 (nextId seedMenuItems) =
      some (mkFromBody (nextId seedMenuItems) teaBody) :=
  ⟨(c4_insert_then_get seedMenuItems teaBody (by decide)).1,
    (c4_insert_then_get seedMenuItems teaBody (by decide)).2.1⟩

/-- C6: update with a candidate failing validation is atomic: for an
existing id the call answers ValidationFailed 400 with the full error
list, the collection is unchanged, and the stored record under that id
still carries every field it had before. -/
theorem c6_update_invalid_atomic (items : List MenuItem) (idStr : String)
    (b : Body) (it : MenuItem) (h1 : lookupById items idStr = some it)
    (h2 : validateErrors b ≠ []) :
    (putHandler items idStr b).1 = items ∧
    (putHandler items idStr b).2 = PutRes.badRequest (validateErrors b) ∧
    putStatus (putHandler items idStr b).2 = 400 ∧
    lookupById (putHandler items idStr b).1 idStr = some it := by
  have hst : (putHandler items idStr b).1 = items := by simp [putHandler, h2]
  have hres : (putHandler items idStr b).2 = PutRes.badRequest (validateErrors b) := by
    simp [putHandler, h2]
  refine ⟨hst, hres, by rw [hres]; rfl, by rw [hst]; exact h1⟩

/-- Witness for C6 at the seed state, the existing id 3, and the all-wrong
candidate. -/
theorem c6_update_invalid_atomic_witness :
    (putHandler seedMenuItems "3" invalidCandidate).1 = seedMenuItems ∧
    (putHandler seedMenuItems "3" invalidCandidate).2 =
      PutRes.badRequest (validateErrors invalidCandidate) ∧
    putStatus (putHandler seedMenuItems "3" invalidCandidate).2 = 400 ∧
    lookupById (putHandler seedMenuItems "3" invalidCandidate).1 "3" = some item3 :=
  c6_update_invalid_atomic seedMenuItems "3" invalidCandidate item3
    (by decide) (by decide)

/-- C7 (amended): a path parameter whose integer parse fails behaves for
every route exactly as an absent id: get and delete answer NotFound 404
without touching the collection, and update answers NotFound when the body
passes validation and ValidationFailed 400 otherwise; a parameter with a
leading digit run instead behaves as the id given by that run. -/
theorem c7_nan_id_not_found (items : List MenuItem) (idStr : String) (b : Body)
    (h : parseIntJs idStr = none) :
    lookupById items idStr = none ∧
    getStatus (lookupById items idStr) = 404 ∧
    deleteHandler items idStr = (items, DelRes.notFound) ∧
    delStatus (deleteHandler items idStr).2 = 404 ∧
    (validateErrors b = [] →
      putHandler items idStr b = (items, PutRes.notFound) ∧
      putStatus (putHandler items idStr b).2 = 404) ∧
    (validateErrors b ≠ [] → putStatus (putHandler items idStr b).2 = 400) := by
  have hl : lookupById items idStr = none := by simp [lookupById, h]
  have hd : deleteHandler items idStr = (items, DelRes.notFound) := by
    simp [deleteHandler, h]
  refine ⟨hl, by rw [hl]; rfl, hd, by rw [hd]; rfl, ?_, ?_⟩
  · intro hv
    have hput : putHandler items idStr b = (items, PutRes.notFound) := by
      simp [putHandler, hv, h]
    exact ⟨hput, by rw [hput]; rfl⟩
  · intro hne
    simp [putHandler, hne, putStatus]

/-- Witness for C7 at the seed state, the unparsable id "abc", and a valid
candidate. -/
theorem c7_nan_id_not_found_witness :
    lookupById seedMenuItems "abc" = none ∧
    getStatus (lookupById seedMenuItems "abc") = 404 ∧
    deleteHandler seedMenuItems "abc" = (seedMenuItems, DelRes.notFound) ∧
    putHandler seedMenuItems "abc" teaBody = (seedMenuItems, PutRes.notFound) :=
  have h := c7_nan_id_not_found seedMenuItems "abc" teaBody (by decide)
  ⟨h.1, h.2.1, h.2.2.1, (h.2.2.2.2.1 (by decide)).1⟩

/-- C8: the list route returns the stored sequence itself; on a collection
split as front, matching item, back, with no match in the front, a valid
update rewrites exactly the matching item in place, leaving the front and
back and hence every position and every other record untouched, and delete
removes exactly that one element leaving the remaining items and their ids
unchanged. -/
theorem c8_order_preservation (items pre post : List MenuItem) (x : MenuItem)
    (idStr : String) (b : Body) (i : Int) (hp : parseIntJs idStr = some i)
    (hl : items = pre ++ x :: post) (hpre : ∀ y ∈ pre, y.id ≠ i)
    (hx : x.id = i) :
    getAllHandler items = items ∧
    (validateErrors b = [] →
      (putHandler items idStr b).1 = pre ++ mkFromBody x.id b :: post ∧
      (putHandler items idStr b).2 = PutRes.ok (mkFromBody x.id b)) ∧
    deleteHandler items idStr = (pre ++ post, DelRes.deleted x) := by
  have hfind : findItem items i = some x := by
    rw [hl]
    exact findItem_decomp hpre hx
  refine ⟨rfl, ?_, ?_⟩
  · intro hv
    constructor
    · rw [show (putHandler items idStr b).1 =
          updateFirst (fun old => mkFromBody old.id b) i items from by
        simp [putHandler, hv, hp, hfind], hl]
      exact updateFirst_decomp _ hpre hx
    · simp [putHandler, hv, hp, hfind]
  · rw [show deleteHandler items idStr = (removeFirst i items, DelRes.deleted x) from by
      simp [deleteHandler, hp, hfind], hl]
    rw [removeFirst_decomp hpre hx]

/-- Witness for C8 at the seed state split around the item with id 3 and
the valid tea candidate. -/
theorem c8_order_preservation_witness :
    (putHandler seedMenuItems "3" teaBody).1 =
      [item1, item2] ++ mkFromBody item3.id teaBody :: [item4, item5, item6] ∧
    deleteHandler seedMenuItems "3" =
      ([item1, item2] ++ [item4, item5, item6], DelRes.deleted item3) :=
  have h := c8_order_preservation seedMenuItems [item1, item2]
    [item4, item5, item6] item3 "3" teaBody 3 (by decide) (by decide)
    (by decide) (by decide)
  ⟨(h.2.1 (by decide)).1, h.2.2⟩

/-- C9: in any reachable store state, when delete succeeds it has removed
a stored item whose id is the parsed path parameter, the response carries
the removed item and the confirmation message with status 200, and a
subsequent get of the same id misses, answering NotFound, until an item
with that id is inserted again. -/
theorem c9_delete_then_get (items : List MenuItem) (idStr : String)
    (d : MenuItem) (hr : Reachable items)
    (h : (deleteHandler items idStr).2 = DelRes.deleted d) :
    d ∈ items ∧ parseIntJs idStr = some d.id ∧
    delMessage (deleteHandler items idStr).2 = "Menu item deleted" ∧
    delStatus (deleteHandler items idStr).2 = 200 ∧
    lookupById (deleteHandler items idStr).1 idStr = none := by
  have hu : (items.map (fun it => it.id)).Nodup := reachable_ids_nodup items hr
  cases hp : parseIntJs idStr with
  | none => simp [deleteHandler, hp] at h
  | some i =>
    cases hf : findItem items i with
    | none => simp [deleteHandler, hp, hf] at h
    | some x =>
      have hd : d = x := by
        simp [deleteHandler, hp, hf] at h
        exact h.symm
      subst hd
      obtain ⟨pre, post, hl, hpre, hx⟩ := findItem_eq_some hf
      have hstate : (deleteHandler items idStr).1 = pre ++ post := by
        rw [show (deleteHandler items idStr).1 = removeFirst i items from by
          simp [deleteHandler, hp, hf], hl]
        exact removeFirst_decomp hpre hx
      refine ⟨by rw [hl]; exact List.mem_append_right pre (List.mem_cons_self d post),
        by rw [hx], ?_, ?_, ?_⟩
      · rw [show (deleteHandler items idStr).2 = DelRes.deleted d from by
          simp [deleteHandler, hp, hf]]
        rfl
      · rw [show (deleteHandler items idStr).2 = DelRes.deleted d from by
          simp [deleteHandler, hp, hf]]
        rfl
      · rw [hstate]
        unfold lookupById
        rw [hp]
        apply findItem_eq_none
        intro y hy
        rcases List.mem_append.mp hy with hmem | hmem
        · exact hpre y hmem
        · have hnodup : ((pre ++ d :: post).map (fun it => it.id)).Nodup := by
            rw [← hl]
            exact hu
          rw [List.map_append, List.map_cons] at hnodup
          have htail : (d.id :: post.map (fun it => it.id)).Nodup :=
            (List.nodup_append.mp hnodup).2.1
          have hnotmem : d.id ∉ post.map (fun it => it.id) :=
            (List.nodup_cons.mp htail).1
          intro he
          exact hnotmem (by
            rw [← hx] at he
            exact he ▸ List.mem_map_of_mem (fun it => it.id) hmem)

/-- Witness for C9 at the seed state and the id 6. -/
theorem c9_delete_then_get_witness :
    item6 ∈ seedMenuItems ∧ parseIntJs "6" = some item6.id ∧
    delMessage (deleteHandler seedMenuItems "6").2 = "Menu item deleted" ∧
    delStatus (deleteHandler seedMenuItems "6").2 = 200 ∧
    lookupById (deleteHandler seedMenuItems "6").1 "6" = none :=
  c9_delete_then_get seedMenuItems "6" item6 Reachable.seed (by decide)

/-- C10: the insert and update handlers read only the six known fields, so
a body extended with any unknown key, in particular an id supplied in the
body, produces identical results; a created item always carries the fresh
id assigned by the store, and a successful update keeps the stored id of
the matched record. -/
theorem c10_unknown_fields_dropped (items : List MenuItem) (b : Body)
    (idStr k : String) (v : JVal) (h : k ∉ knownKeys) :
    postHandler items ((k, v) :: b) = postHandler items b ∧
    putHandler items idStr ((k, v) :: b) = putHandler items idStr b ∧
    (∀ it, (postHandler items ((k, v) :: b)).2 = PostRes.created it →
      it.id = nextId items) ∧
    (∀ it i x, parseIntJs idStr = some i → findItem items i = some x →
      (putHandler items idStr ((k, v) :: b)).2 = PutRes.ok it → it.id = x.id) := by
  have hk : k ≠ "name" ∧ k ≠ "description" ∧ k ≠ "price" ∧ k ≠ "category" ∧
      k ≠ "ingredients" ∧ k ≠ "available" := by
    unfold knownKeys at h
    simp at h
    exact h
  have hlook : ∀ key, key ∈ knownKeys → lookupJ ((k, v) :: b) key = lookupJ b key := by
    intro key hkey
    apply lookupJ_cons_ne
    intro he
    have hkeq : k = key := he
    rw [hkeq] at h
    exact h hkey
  have hval : validateErrors ((k, v) :: b) = validateErrors b := by
    unfold validateErrors
    rw [hlook "name" (by decide), hlook "description" (by decide),
      hlook "price" (by decide), hlook "category" (by decide),
      hlook "ingredients" (by decide), hlook "available" (by decide)]
  have hsb : sanitizeBody ((k, v) :: b) = (k, v) :: sanitizeBody b := by
    rw [sanitizeBody_cons]
    simp [hk.1, hk.2.1]
  have hsan : ∀ key, key ∈ knownKeys →
      lookupJ (sanitizeBody ((k, v) :: b)) key = lookupJ (sanitizeBody b) key := by
    intro key hkey
    rw [hsb]
    apply lookupJ_cons_ne
    intro he
    have hkeq : k = key := he
    rw [hkeq] at h
    exact h hkey
  have hmk : ∀ i, mkFromBody i ((k, v) :: b) = mkFromBody i b := by
    intro i
    simp only [mkFromBody]
    rw [hsan "name" (by decide), hsan "description" (by decide),
      hsan "price" (by decide), hsan "category" (by decide),
      hsan "ingredients" (by decide), hsan "available" (by decide)]
  have hpost : postHandler items ((k, v) :: b) = postHandler items b := by
    unfold postHandler
    rw [hval, hmk]
  have hput : putHandler items idStr ((k, v) :: b) = putHandler items idStr b := by
    by_cases hv : validateErrors b = []
    · cases hp : parseIntJs idStr with
      | none => simp [putHandler, hval, hv, hp]
      | some i =>
        cases hf : findItem items i with
        | none => simp [putHandler, hval, hv, hp, hf]
        | some x =>
          have hfun : (fun old : MenuItem => mkFromBody old.id ((k, v) :: b)) =
              (fun old : MenuItem => mkFromBody old.id b) :=
            funext (fun old => hmk old.id)
          simp [putHandler, hval, hv, hp, hf, hfun, hmk x.id]
    · simp [putHandler, hval, hv]
  refine ⟨hpost, hput, ?_, ?_⟩
  · intro it hres
    rw [hpost] at hres
    by_cases hv : validateErrors b = []
    · have hit : it = mkFromBody (nextId items) b := by
        simp [postHandler, hv] at hres
        exact hres.symm
      rw [hit, mkFromBody_id]
    · simp [postHandler, hv] at hres
  · intro it i x hp hf hres
    rw [hput] at hres
    by_cases hv : validateErrors b = []
    · have hit : it = mkFromBody x.id b := by
        simp [putHandler, hv, hp, hf] at hres
        exact hres.symm
      rw [hit, mkFromBody_id]
    · simp [putHandler, hv] at hres

/-- Witness for C10 at the seed state with an id field injected into the
valid tea candidate. -/
theorem c10_unknown_fields_dropped_witness :
    postHandler seedMenuItems (("id", JVal.jnum 99) :: teaBody) =
      postHandler seedMenuItems teaBody ∧
    putHandler seedMenuItems "3" (("id", JVal.jnum 99) :: teaBody) =
      putHandler seedMenuItems "3" teaBody :=
  have h := c10_unknown_fields_dropped seedMenuItems teaBody "3" "id"
    (JVal.jnum 99) (by decide)
  ⟨h.1, h.2.1⟩

end ReducibleRat

end MenuApi
